import Mathlib

/-!
Verification of the ROX (Rhythm Open Exchange) chart-conversion library.

This file gives a shallow embedding, in Lean 4, of the parts of the library
that the specification's claims are about:

* the chart data model (`RoxChart`, `Metadata`, `TimingPoint`, `Note`,
  `Hitsound`) and `RoxChart.validate` (src/model);
* the binary ROX codec: delta encoding of note times, magic-byte framing,
  and the decoder-side checks (src/codec/formats/rox, src/codec/rox.rs);
* the osu column mapping (src/codec/formats/osu);
* the osu mode probe of the auto dispatcher (src/codec/auto/decode.rs);
* the StepMania measure parser and hold/roll pairing decoder
  (src/codec/formats/sm);
* the taiko-to-4K conversion (src/codec/formats/taiko).

Modelling conventions:

* Rust `i64` values are modelled as `Int`.  Where the code performs `i64`
  arithmetic whose wrap-around behaviour matters to a claim (the delta
  encoding), the operation is modelled with an explicit reduction modulo
  2^64 (`wrap64`), matching two's-complement release-profile semantics.
* Rust `f32`/`f64` values are modelled by the exact fraction type `Frac`
  below (an unreduced `Int` numerator over a `Nat` denominator).  No claim
  in scope depends on floating-point rounding: all concrete scenarios use
  values on which the `f64` computations of the source are exact.
* Rust `Vec<T>` is `List T`; `String`/`CompactString` are Lean `String`
  except where character-level scanning is modelled (`List Char`).
* Fallible Rust functions returning `Result<T, RoxError>` are modelled as
  `Except RoxError T`.
* `Vec::sort_by` / `sort_by_key` (stable sorts) are modelled by a stable
  insertion sort `sortLe`; any two stable sorts agree for a total
  transitive boolean comparison, so this is semantics-preserving.
-/

/-- Exact rational arithmetic with an unreduced representation:
numerator `num : Int` over denominator `den : Nat`.  Used to model the
`f32`/`f64` arithmetic of the source exactly on inputs where the source's
floating-point computation is itself exact.  No normalisation is
performed, so all operations are plain kernel-reducible `Int`/`Nat`
arithmetic. -/
structure Frac where
  num : Int
  den : Nat
  deriving DecidableEq, Repr

namespace Frac

/-- Embed an integer as a fraction. -/
def ofInt (n : Int) : Frac := ⟨n, 1⟩

/-- Embed a natural number as a fraction. -/
def ofNat (n : Nat) : Frac := ⟨n, 1⟩

def add (a b : Frac) : Frac := ⟨a.num * b.den + b.num * a.den, a.den * b.den⟩

def sub (a b : Frac) : Frac := ⟨a.num * b.den - b.num * a.den, a.den * b.den⟩

def mul (a b : Frac) : Frac := ⟨a.num * b.num, a.den * b.den⟩

/-- Division, keeping the denominator nonnegative. -/
def div (a b : Frac) : Frac :=
  if 0 ≤ b.num then ⟨a.num * b.den, a.den * b.num.toNat⟩
  else ⟨-(a.num * b.den), a.den * (-b.num).toNat⟩

/-- `a ≤ b` as values (denominators are nonnegative by construction). -/
def ble (a b : Frac) : Bool := a.num * b.den ≤ b.num * a.den

/-- `a < b` as values. -/
def blt (a b : Frac) : Bool := a.num * b.den < b.num * a.den

/-- Truncation toward zero, the semantics of Rust's `as i64` cast on a
finite `f64` value. -/
def trunc (a : Frac) : Int := a.num.tdiv a.den

end Frac

/-- Reduce an integer into the `i64` range, two's-complement style: the
semantics of wrapping `i64` arithmetic. -/
def wrap64 (x : Int) : Int := (x + 2 ^ 63) % 2 ^ 64 - 2 ^ 63

/-- `x` is representable as an `i64`. -/
def inI64 (x : Int) : Bool := -(2 ^ 63) ≤ x && x < 2 ^ 63

theorem wrap64_eq_self {x : Int} (h : inI64 x = true) : wrap64 x = x := by
  simp only [inI64, Bool.and_eq_true, decide_eq_true_eq] at h
  unfold wrap64
  omega

theorem wrap64_add_left (a b : Int) : wrap64 (a + wrap64 b) = wrap64 (a + b) := by
  unfold wrap64
  omega

/-! ### A stable sort

Rust's `Vec::sort_by` / `sort_by_key` are stable sorts.  `sortLe` below is
a stable insertion sort; for a total, transitive boolean comparison any
two stable sorts compute the same function, so `sortLe` models the
source's sorts faithfully.  It is structurally recursive, hence fully
kernel-reducible for concrete inputs. -/

/-- Insert `a` into `l`, before the first element `b` with `le a b`.
Elements comparing equal to `a` that are already in `l` stay before `a`,
which is what stability requires. -/
def insertLe (le : α → α → Bool) (a : α) : List α → List α
  | [] => [a]
  | b :: l => if le a b then a :: b :: l else b :: insertLe le a l

/-- Stable insertion sort by a boolean comparison. -/
def sortLe (le : α → α → Bool) : List α → List α
  | [] => []
  | a :: l => insertLe le a (sortLe le l)

theorem insertLe_perm (le : α → α → Bool) (a : α) (l : List α) :
    List.Perm (insertLe le a l) (a :: l) := by
  induction l with
  | nil => simp [insertLe]
  | cons b l ih =>
    simp only [insertLe]
    split
    · exact List.Perm.refl _
    · exact List.Perm.trans (List.Perm.cons b ih) (List.Perm.swap a b l)

theorem sortLe_perm (le : α → α → Bool) (l : List α) :
    List.Perm (sortLe le l) l := by
  induction l with
  | nil => exact List.Perm.refl _
  | cons a l ih =>
    exact List.Perm.trans (insertLe_perm le a (sortLe le l)) (List.Perm.cons a ih)

theorem insertLe_pairwise (le : α → α → Bool)
    (total : ∀ x y, le x y = true ∨ le y x = true)
    (trans : ∀ x y z, le x y = true → le y z = true → le x z = true)
    (a : α) (l : List α) (h : List.Pairwise (fun x y => le x y = true) l) :
    List.Pairwise (fun x y => le x y = true) (insertLe le a l) := by
  induction l with
  | nil => simp [insertLe]
  | cons b l ih =>
    simp only [insertLe]
    rcases List.pairwise_cons.mp h with ⟨hb, hl⟩
    split
    · rename_i hab
      refine List.pairwise_cons.mpr ⟨?_, h⟩
      intro y hy
      rcases List.mem_cons.mp hy with rfl | hy
      · exact hab
      · exact trans a b y hab (hb y hy)
    · rename_i hab
      have hba : le b a = true := by
        rcases total a b with h1 | h1
        · exact absurd h1 hab
        · exact h1
      refine List.pairwise_cons.mpr ⟨?_, ih hl⟩
      intro y hy
      have := (insertLe_perm le a l).mem_iff.mp hy
      rcases List.mem_cons.mp this with rfl | hy
      · exact hba
      · exact hb y hy

theorem sortLe_pairwise (le : α → α → Bool)
    (total : ∀ x y, le x y = true ∨ le y x = true)
    (trans : ∀ x y z, le x y = true → le y z = true → le x z = true)
    (l : List α) :
    List.Pairwise (fun x y => le x y = true) (sortLe le l) := by
  induction l with
  | nil => simp [sortLe]
  | cons a l ih => exact insertLe_pairwise le total trans a (sortLe le l) ih

deriving instance DecidableEq for Except

/-! ### The chart data model (src/src/model) -/

/-- Errors of the library (src/src/error.rs together with the variants the
codec modules construct).  Message payloads are modelled as `String`. -/
inductive RoxError where
  | Io (msg : String)
  | InvalidFormat (msg : String)
  | UnsupportedFormat (msg : String)
  | UnsupportedVersion (v : Nat)
  | Serialize (msg : String)
  | Deserialize (msg : String)
  | InvalidColumn (column : Nat) (key_count : Nat)
  | InvalidHoldDuration (time_us : Int) (duration_us : Int)
  | TimingPointsNotSorted (prev_time_us : Int) (time_us : Int)
  | OverlappingNotes (column : Nat) (time_us : Int)
  | NoBpmTimingPoint
  deriving DecidableEq, Repr

/-- Type of note (src/src/model/note.rs, NoteType). -/
inductive NoteType where
  | Tap
  | Hold (duration_us : Int)
  | Burst (duration_us : Int)
  | Mine
  deriving DecidableEq, Repr

/-- A single note in the chart (src/src/model/note.rs, Note).
`time_us : i64` is `Int`, `column : u8` is `Nat`, `hitsound_index :
Option<u16>` is `Option Nat`. -/
structure Note where
  time_us : Int
  note_type : NoteType
  hitsound_index : Option Nat
  column : Nat
  deriving DecidableEq, Repr

namespace Note

/-- Create a tap note (Note::tap). -/
def tap (time_us : Int) (column : Nat) : Note :=
  ⟨time_us, .Tap, none, column⟩

/-- Create a hold note (Note::hold). -/
def hold (time_us duration_us : Int) (column : Nat) : Note :=
  ⟨time_us, .Hold duration_us, none, column⟩

/-- Create a burst/roll note (Note::burst). -/
def burst (time_us duration_us : Int) (column : Nat) : Note :=
  ⟨time_us, .Burst duration_us, none, column⟩

/-- Create a mine note (Note::mine). -/
def mine (time_us : Int) (column : Nat) : Note :=
  ⟨time_us, .Mine, none, column⟩

/-- Check if this is a hold note (Note::is_hold). -/
def is_hold (n : Note) : Bool :=
  match n.note_type with
  | .Hold _ => true
  | _ => false

/-- Check if this is a burst note (Note::is_burst). -/
def is_burst (n : Note) : Bool :=
  match n.note_type with
  | .Burst _ => true
  | _ => false

/-- Duration for holds/bursts, 0 for taps/mines (Note::duration_us). -/
def duration_us (n : Note) : Int :=
  match n.note_type with
  | .Tap | .Mine => 0
  | .Hold d | .Burst d => d

/-- End time: start time plus duration (Note::end_time_us). -/
def end_time_us (n : Note) : Int := n.time_us + n.duration_us

end Note

/-- A timing point (src/src/model/timing.rs, TimingPoint).  The `f32`
fields `bpm` and `scroll_speed` are modelled as `Frac`. -/
structure TimingPoint where
  time_us : Int
  bpm : Frac
  signature : Nat
  is_inherited : Bool
  scroll_speed : Frac
  deriving DecidableEq, Repr

namespace TimingPoint

/-- Create a BPM timing point (TimingPoint::bpm). -/
def bpm_point (time_us : Int) (bpm : Frac) : TimingPoint :=
  ⟨time_us, bpm, 4, false, Frac.ofInt 1⟩

/-- Create a scroll-velocity point (TimingPoint::sv). -/
def sv (time_us : Int) (scroll_speed : Frac) : TimingPoint :=
  ⟨time_us, Frac.ofInt 0, 4, true, scroll_speed⟩

end TimingPoint

/-- A hitsound sample (src/src/model/hitsound.rs, Hitsound). -/
structure Hitsound where
  file : String
  volume : Option Nat
  deriving DecidableEq, Repr

/-- Chart metadata (src/src/model/metadata.rs, Metadata).  CompactString
fields are `String`; the `f32` difficulty value is `Frac`. -/
structure Metadata where
  chart_id : Option Nat
  chartset_id : Option Nat
  key_count : Nat
  title : String
  artist : String
  creator : String
  difficulty_name : String
  difficulty_value : Option Frac
  audio_file : String
  background_file : Option String
  audio_offset_us : Int
  preview_time_us : Int
  preview_duration_us : Int
  source : Option String
  genre : Option String
  language : Option String
  tags : List String
  is_coop : Bool
  deriving DecidableEq, Repr

/-- Metadata::default (src/src/model/metadata.rs). -/
def Metadata.default : Metadata :=
  { chart_id := none
    chartset_id := none
    key_count := 4
    title := ""
    artist := ""
    creator := ""
    difficulty_name := "Normal"
    difficulty_value := none
    audio_file := ""
    background_file := none
    audio_offset_us := 0
    preview_time_us := 0
    preview_duration_us := 15000000
    source := none
    genre := none
    language := none
    tags := []
    is_coop := false }

/-- Current ROX format version (src/src/model/chart.rs, ROX_VERSION). -/
def ROX_VERSION : Nat := 2

/-- Magic bytes identifying ROX files (src/src/model/chart.rs,
ROX_MAGIC). -/
def ROX_MAGIC : List Nat := [0x52, 0x4F, 0x58, 0x00]

/-- A complete VSRG chart (src/src/model/chart.rs, RoxChart). -/
structure RoxChart where
  version : Nat
  metadata : Metadata
  timing_points : List TimingPoint
  notes : List Note
  hitsounds : List Hitsound
  deriving DecidableEq, Repr

namespace RoxChart

/-- Create a new empty chart with the given key count (RoxChart::new). -/
def new (key_count : Nat) : RoxChart :=
  { version := ROX_VERSION
    metadata := { Metadata.default with key_count := key_count }
    timing_points := []
    notes := []
    hitsounds := [] }

/-- Key-count accessor (RoxChart::key_count). -/
def key_count (c : RoxChart) : Nat := c.metadata.key_count

/-- Stage 4 of validate: timing points sorted by time.  The Rust loop
starts its `prev_time` cursor at `i64::MIN`. -/
def checkTimingSorted (prev : Int) : List TimingPoint → Except RoxError Unit
  | [] => .ok ()
  | tp :: rest =>
    if tp.time_us < prev then
      .error (.TimingPointsNotSorted prev tp.time_us)
    else
      checkTimingSorted tp.time_us rest

/-- Comparison used when validate sorts a column's notes by `time_us`
(`col_notes.sort_by_key(|n| n.time_us)`). -/
def timeLe (a b : Note) : Bool := a.time_us ≤ b.time_us

/-- Adjacent-pair overlap scan over one column's time-sorted notes
(the `windows(2)` loop of validate). -/
def checkOverlapSorted (col : Nat) : List Note → Except RoxError Unit
  | [] => .ok ()
  | [_] => .ok ()
  | prev :: curr :: rest =>
    if curr.time_us < prev.end_time_us then
      .error (.OverlappingNotes col curr.time_us)
    else
      checkOverlapSorted col (curr :: rest)

/-- Per-column overlap check of validate: filter the column's notes,
stable-sort them by time, scan adjacent pairs; the first failing column
reports its error. -/
def checkOverlapCols (notes : List Note) : List Nat → Except RoxError Unit
  | [] => .ok ()
  | col :: cols =>
    match checkOverlapSorted col (sortLe timeLe (notes.filter (fun n => n.column == col))) with
    | .error e => .error e
    | .ok _ => checkOverlapCols notes cols

/-- Validate the chart (RoxChart::validate, src/src/model/chart.rs lines
82-166): column bounds, coop parity, hold/burst durations, timing-point
order, BPM-point existence when notes are present, per-column overlap.
The sequential early-return structure of the Rust function is rendered as
nested matches. -/
def validate (c : RoxChart) : Except RoxError Unit :=
  match c.notes.find? (fun n => c.key_count ≤ n.column) with
  | some n => .error (.InvalidColumn n.column c.key_count)
  | none =>
    if c.metadata.is_coop && !(c.key_count % 2 == 0) then
      .error (.InvalidFormat ("Coop mode requires even key count, got " ++ toString c.key_count))
    else
      match c.notes.find? (fun n => (n.is_hold || n.is_burst) && n.duration_us ≤ 0) with
      | some n => .error (.InvalidHoldDuration n.time_us n.duration_us)
      | none =>
        match checkTimingSorted (-(2 ^ 63)) c.timing_points with
        | .error e => .error e
        | .ok _ =>
          if !c.notes.isEmpty then
            match c.timing_points.find? (fun tp => !tp.is_inherited) with
            | none => .error .NoBpmTimingPoint
            | some _ => checkOverlapCols c.notes (List.range c.key_count)
          else
            checkOverlapCols c.notes (List.range c.key_count)

end RoxChart

/-! ### Binary ROX codec (src/src/codec/formats/rox, src/src/codec/rox.rs)

The serializer (rkyv respectively bincode) and the compressor (zstd) are
external libraries, not code of this repository; the codec is therefore
parametrised over them.  Encode-side they are modelled as fallible
functions whose success is a hypothesis of the round-trip theorem, which
matches the specification's treatment of them as a round-tripping
structural serialization plus a general-purpose compressor. -/

namespace RoxCodec

/-- All note times are representable as `i64`, the invariant the Rust
types enforce by construction. -/
def timesInI64 (notes : List Note) : Bool :=
  notes.all (fun n => inI64 n.time_us)

/-- Note list is sorted non-decreasing by `time_us`. -/
def sortedByTime : List Note → Bool
  | [] => true
  | [_] => true
  | a :: b :: rest => (a.time_us ≤ b.time_us : Bool) && sortedByTime (b :: rest)

/-- Loop body of RoxCodec::delta_encode_notes: replace each time by the
(wrapping) difference from the previous note's original absolute time,
the accumulator starting at 0. -/
def delta_encode_aux (last : Int) : List Note → List Note
  | [] => []
  | n :: ns =>
    { n with time_us := wrap64 (n.time_us - last) } :: delta_encode_aux n.time_us ns

/-- RoxCodec::delta_encode_notes (src/src/codec/formats/rox/mod.rs lines
55-66): clone the chart with delta-encoded note timestamps. -/
def delta_encode_notes (chart : RoxChart) : RoxChart :=
  { chart with notes := delta_encode_aux 0 chart.notes }

/-- Loop body of RoxCodec::delta_decode_notes: running (wrapping) prefix
sum, the accumulator starting at 0. -/
def delta_decode_aux (acc : Int) : List Note → List Note
  | [] => []
  | n :: ns =>
    let t := wrap64 (acc + n.time_us)
    { n with time_us := t } :: delta_decode_aux t ns

/-- RoxCodec::delta_decode_notes (src/src/codec/formats/rox/mod.rs lines
69-76): restore absolute timestamps from deltas. -/
def delta_decode_notes (chart : RoxChart) : RoxChart :=
  { chart with notes := delta_decode_aux 0 chart.notes }

/-- RoxCodec::encode (src/src/codec/formats/rox/mod.rs lines 102-123):
validate, delta-encode, serialize, compress, prepend the magic. -/
def encode (serialize : RoxChart → Except String (List Nat))
    (compress : List Nat → Except String (List Nat))
    (chart : RoxChart) : Except RoxError (List Nat) :=
  match chart.validate with
  | .error e => .error e
  | .ok _ =>
    match serialize (delta_encode_notes chart) with
    | .error e => .error (.Serialize e)
    | .ok encoded =>
      match compress encoded with
      | .error e => .error (.Io e)
      | .ok compressed => .ok (ROX_MAGIC ++ compressed)

/-- RoxCodec::decode (src/src/codec/formats/rox/mod.rs lines 79-100):
check length and magic, decompress the remainder, deserialize, undo the
delta encoding. -/
def decode (decompress : List Nat → Except String (List Nat))
    (deserialize : List Nat → Except String RoxChart)
    (data : List Nat) : Except RoxError RoxChart :=
  if data.length < 4 ∨ data.take 4 ≠ ROX_MAGIC then
    .error (.InvalidFormat "Invalid ROX file: missing magic bytes")
  else
    match decompress (data.drop 4) with
    | .error e => .error (.Io e)
    | .ok decompressed =>
      match deserialize decompressed with
      | .error e => .error (.Deserialize e)
      | .ok chart => .ok (delta_decode_notes chart)

/-- Maximum raw input size accepted by the binary decoder.
Modelled from the spec: the constant `MAX_FILE_SIZE` referenced by
src/src/codec/formats/rox/decoder.rs and rox/tests.rs is declared in a
parent-module revision absent from the snapshot; the spec states a
100 MiB ceiling, the value every textual parser in the snapshot uses. -/
def MAX_FILE_SIZE : Nat := 100 * 1024 * 1024

/-- Decoder entry of src/src/codec/formats/rox/decoder.rs lines 36-65:
like `decode`, with the additional size-ceiling check between the magic
check and decompression. -/
def decodeChecked (decompress : List Nat → Except String (List Nat))
    (deserialize : List Nat → Except String RoxChart)
    (data : List Nat) : Except RoxError RoxChart :=
  if data.length < 4 ∨ data.take 4 ≠ ROX_MAGIC then
    .error (.InvalidFormat "Invalid ROX file: missing magic bytes")
  else if MAX_FILE_SIZE < data.length then
    .error (.InvalidFormat ("File too large: " ++ toString data.length
      ++ " bytes (max " ++ toString (MAX_FILE_SIZE / 1024 / 1024) ++ "MB)"))
  else
    match decompress (data.drop 4) with
    | .error e => .error (.Io e)
    | .ok decompressed =>
      match deserialize decompressed with
      | .error e => .error (.Deserialize e)
      | .ok chart => .ok (delta_decode_notes chart)

theorem delta_aux_roundtrip (notes : List Note) (last : Int)
    (hall : timesInI64 notes = true) (hlast : inI64 last = true) :
    delta_decode_aux last (delta_encode_aux last notes) = notes := by
  induction notes generalizing last with
  | nil => rfl
  | cons n ns ih =>
    have hn : inI64 n.time_us = true := by
      have := (List.all_eq_true.mp hall) n (List.mem_cons_self n ns)
      simpa using this
    have hns : timesInI64 ns = true := by
      refine List.all_eq_true.mpr ?_
      intro x hx
      exact (List.all_eq_true.mp hall) x (List.mem_cons_of_mem n hx)
    simp only [delta_encode_aux, delta_decode_aux]
    have ht : wrap64 (last + wrap64 (n.time_us - last)) = n.time_us := by
      rw [wrap64_add_left]
      have : last + (n.time_us - last) = n.time_us := by ring
      rw [this, wrap64_eq_self hn]
    simp only [ht]
    rw [ih n.time_us hns hn]

theorem delta_chart_roundtrip (c : RoxChart)
    (hall : timesInI64 c.notes = true) :
    delta_decode_notes (delta_encode_notes c) = c := by
  cases c with
  | mk version metadata timing_points notes hitsounds =>
    simp only [delta_encode_notes, delta_decode_notes]
    congr 1
    exact delta_aux_roundtrip notes 0 hall (by decide)

end RoxCodec

/-- C1: for every chart accepted by validate, the binary ROX codec
round-trips exactly — decode ∘ encode succeeds and returns the chart
unchanged on every field — and the encoded bytes start with the magic
`0x52 0x4F 0x58 0x00`.  The structural serializer and the compressor are
external libraries; their round-trip behaviour on the payload at hand is
taken as hypotheses (`hser`/`hcomp`/`hdecomp`/`hdeser`), and `hrange`
records that all note times are `i64`-representable, which the Rust types
guarantee. -/
theorem C1_rox_binary_roundtrip
    (serialize : RoxChart → Except String (List Nat))
    (compress : List Nat → Except String (List Nat))
    (decompress : List Nat → Except String (List Nat))
    (deserialize : List Nat → Except String RoxChart)
    (c : RoxChart) (payload compressed : List Nat)
    (hval : c.validate = .ok ())
    (hrange : RoxCodec.timesInI64 c.notes = true)
    (hser : serialize (RoxCodec.delta_encode_notes c) = .ok payload)
    (hcomp : compress payload = .ok compressed)
    (hdecomp : decompress compressed = .ok payload)
    (hdeser : deserialize payload = .ok (RoxCodec.delta_encode_notes c)) :
    RoxCodec.encode serialize compress c = .ok (ROX_MAGIC ++ compressed)
      ∧ RoxCodec.decode decompress deserialize (ROX_MAGIC ++ compressed) = .ok c
      ∧ (ROX_MAGIC ++ compressed).take 4 = ROX_MAGIC := by
  have henc : RoxCodec.encode serialize compress c = .ok (ROX_MAGIC ++ compressed) := by
    simp only [RoxCodec.encode, hval, hser, hcomp]
  refine ⟨henc, ?_, by simp [ROX_MAGIC]⟩
  unfold RoxCodec.decode
  have hlen : ¬((ROX_MAGIC ++ compressed).length < 4 ∨
      (ROX_MAGIC ++ compressed).take 4 ≠ ROX_MAGIC) := by
    simp [ROX_MAGIC]
  rw [if_neg hlen]
  have hdrop : (ROX_MAGIC ++ compressed).drop 4 = compressed := by
    simp [ROX_MAGIC]
  simp only [hdrop, hdecomp, hdeser, RoxCodec.delta_chart_roundtrip c hrange]

/-- Concrete chart used to witness the round-trip theorems. -/
def chartS1 : RoxChart :=
  { RoxChart.new 4 with
    timing_points := [TimingPoint.bpm_point 0 (Frac.ofInt 180),
      TimingPoint.sv 60000000 (Frac.mk 3 2)]
    notes := [Note.tap 1000000 0, Note.tap 1500000 1,
      Note.hold 2000000 1000000 2] }

/-- Witness for C1: instantiate the round-trip theorem at `chartS1` with
a trivial serialization scheme that is exact on the payload at hand. -/
theorem C1_rox_binary_roundtrip_witness :
    RoxCodec.encode (fun _ => .ok [7]) (fun d => .ok d) chartS1 = .ok (ROX_MAGIC ++ [7])
      ∧ RoxCodec.decode (fun d => .ok d)
          (fun _ => .ok (RoxCodec.delta_encode_notes chartS1)) (ROX_MAGIC ++ [7]) = .ok chartS1
      ∧ (ROX_MAGIC ++ [7]).take 4 = ROX_MAGIC :=
  C1_rox_binary_roundtrip (fun _ => .ok [7]) (fun d => .ok d) (fun d => .ok d)
    (fun _ => .ok (RoxCodec.delta_encode_notes chartS1)) chartS1 [7] [7]
    (by decide) (by decide) rfl rfl rfl rfl

/-- A note with its time erased, to state that a transformation touches
nothing but `time_us`. -/
def Note.eraseTime (n : Note) : Note := { n with time_us := 0 }

theorem delta_encode_aux_eraseTime (last : Int) (l : List Note) :
    (RoxCodec.delta_encode_aux last l).map Note.eraseTime = l.map Note.eraseTime := by
  induction l generalizing last with
  | nil => rfl
  | cons n ns ih =>
    simp only [RoxCodec.delta_encode_aux, List.map_cons, ih]
    rfl

theorem delta_decode_aux_eraseTime (acc : Int) (l : List Note) :
    (RoxCodec.delta_decode_aux acc l).map Note.eraseTime = l.map Note.eraseTime := by
  induction l generalizing acc with
  | nil => rfl
  | cons n ns ih =>
    simp only [RoxCodec.delta_decode_aux, List.map_cons, ih]
    rfl

/-- C2: on any chart whose notes are sorted non-decreasing by `time_us`,
the encoder's delta transformation followed by the decoder's prefix-sum
recovery is the identity, and each of the two transformations changes
nothing but `Note.time_us` — the version, metadata, timing points,
hitsounds, and every non-time note field are untouched. -/
theorem C2_delta_prefix_sum_identity (c : RoxChart)
    (hsorted : RoxCodec.sortedByTime c.notes = true)
    (hrange : RoxCodec.timesInI64 c.notes = true) :
    RoxCodec.delta_decode_notes (RoxCodec.delta_encode_notes c) = c
      ∧ (∀ d : RoxChart,
          (RoxCodec.delta_encode_notes d).version = d.version
          ∧ (RoxCodec.delta_encode_notes d).metadata = d.metadata
          ∧ (RoxCodec.delta_encode_notes d).timing_points = d.timing_points
          ∧ (RoxCodec.delta_encode_notes d).hitsounds = d.hitsounds
          ∧ (RoxCodec.delta_encode_notes d).notes.map Note.eraseTime
              = d.notes.map Note.eraseTime)
      ∧ (∀ d : RoxChart,
          (RoxCodec.delta_decode_notes d).version = d.version
          ∧ (RoxCodec.delta_decode_notes d).metadata = d.metadata
          ∧ (RoxCodec.delta_decode_notes d).timing_points = d.timing_points
          ∧ (RoxCodec.delta_decode_notes d).hitsounds = d.hitsounds
          ∧ (RoxCodec.delta_decode_notes d).notes.map Note.eraseTime
              = d.notes.map Note.eraseTime) := by
  refine ⟨RoxCodec.delta_chart_roundtrip c hrange, ?_, ?_⟩
  · intro d
    exact ⟨rfl, rfl, rfl, rfl, delta_encode_aux_eraseTime 0 d.notes⟩
  · intro d
    exact ⟨rfl, rfl, rfl, rfl, delta_decode_aux_eraseTime 0 d.notes⟩

/-- Witness for C2 at the concrete chart `chartS1`. -/
theorem C2_delta_prefix_sum_identity_witness :
    RoxCodec.delta_decode_notes (RoxCodec.delta_encode_notes chartS1) = chartS1
      ∧ (RoxCodec.delta_encode_notes chartS1).timing_points = chartS1.timing_points :=
  ⟨(C2_delta_prefix_sum_identity chartS1 (by decide) (by decide)).1,
    ((C2_delta_prefix_sum_identity chartS1 (by decide) (by decide)).2.1 chartS1).2.2.1⟩

/-! ### Claim C3: what validate accepts and rejects -/

namespace RoxChart

theorem checkTimingSorted_chain :
    ∀ (l : List TimingPoint) (prev : Int), checkTimingSorted prev l = .ok () →
      List.Chain' (fun a b => a.time_us ≤ b.time_us) l
  | [], _, _ => List.chain'_nil
  | [tp], prev, h => List.chain'_singleton tp
  | tp :: tp' :: rest, prev, h => by
    unfold checkTimingSorted at h
    split at h
    · exact absurd h (by simp)
    · rename_i hge
      have tail := checkTimingSorted_chain (tp' :: rest) tp.time_us h
      refine List.chain'_cons.mpr ⟨?_, tail⟩
      have h2 := h
      unfold checkTimingSorted at h2
      split at h2
      · exact absurd h2 (by simp)
      · rename_i hge2
        omega

theorem checkOverlapSorted_chain :
    ∀ (l : List Note) (col : Nat), checkOverlapSorted col l = .ok () →
      List.Chain' (fun a b => a.end_time_us ≤ b.time_us) l
  | [], _, _ => List.chain'_nil
  | [n], _, _ => List.chain'_singleton n
  | prev :: curr :: rest, col, h => by
    unfold checkOverlapSorted at h
    split at h
    · exact absurd h (by simp)
    · rename_i hge
      have tail := checkOverlapSorted_chain (curr :: rest) col h
      exact List.chain'_cons.mpr ⟨by omega, tail⟩

theorem checkOverlapCols_ok (notes : List Note) :
    ∀ (cols : List Nat), checkOverlapCols notes cols = .ok () →
      ∀ col ∈ cols,
        checkOverlapSorted col (sortLe timeLe (notes.filter (fun n => n.column == col))) = .ok ()
  | [], _, _, hmem => absurd hmem (List.not_mem_nil _)
  | col :: cols, h, c, hmem => by
    unfold checkOverlapCols at h
    split at h
    · exact absurd h (by simp)
    · rename_i u hok
      rcases List.mem_cons.mp hmem with rfl | hmem
      · cases u
        exact hok
      · exact checkOverlapCols_ok notes cols h c hmem

/-- From the adjacent-pair guarantee on a time-sorted list, no element
overlaps any later element. -/
theorem pairwise_end_le_of_chain :
    ∀ (l : List Note),
      List.Chain' (fun a b => a.end_time_us ≤ b.time_us) l →
      List.Pairwise (fun a b : Note => a.time_us ≤ b.time_us) l →
      List.Pairwise (fun a b : Note => a.end_time_us ≤ b.time_us) l
  | [], _, _ => List.Pairwise.nil
  | a :: l, hchain, hsorted => by
    rcases List.pairwise_cons.mp hsorted with ⟨hts, hsorted'⟩
    have hchain' : List.Chain' (fun a b => a.end_time_us ≤ b.time_us) l :=
      (List.chain'_cons'.mp hchain).2
    refine List.pairwise_cons.mpr ⟨?_, pairwise_end_le_of_chain l hchain' hsorted'⟩
    intro b hb
    cases l with
    | nil => exact absurd hb (List.not_mem_nil b)
    | cons x l' =>
      have hax : a.end_time_us ≤ x.time_us := (List.chain'_cons.mp hchain).1
      rcases List.mem_cons.mp hb with rfl | hb'
      · exact hax
      · have hxb : x.time_us ≤ b.time_us :=
          (List.pairwise_cons.mp hsorted').1 b hb'
        omega

theorem timeLe_total : ∀ x y : Note, timeLe x y = true ∨ timeLe y x = true := by
  intro x y
  simp only [timeLe, decide_eq_true_eq]
  omega

theorem timeLe_trans : ∀ x y z : Note,
    timeLe x y = true → timeLe y z = true → timeLe x z = true := by
  intro x y z h1 h2
  simp only [timeLe, decide_eq_true_eq] at *
  omega

end RoxChart

/-- Counterexample to C3 as stated: a 4K chart that contains a note at
column 4 but whose first out-of-bounds note sits at column 5. -/
def c3cex : RoxChart :=
  { RoxChart.new 4 with notes := [Note.tap 0 5, Note.tap 0 4] }

/-- C3 counterexample: `c3cex` has `key_count = 4` and contains a note
with `column = 4`, yet validate reports `InvalidColumn { column: 5,
key_count: 4 }` — the first out-of-bounds note in note order — not
`InvalidColumn { column: 4, key_count: 4 }` as the claim states. -/
theorem C3_validate_counterexample :
    c3cex.key_count = 4
      ∧ (∃ n ∈ c3cex.notes, n.column = 4)
      ∧ c3cex.validate = .error (.InvalidColumn 5 4)
      ∧ c3cex.validate ≠ .error (.InvalidColumn 4 4) := by
  refine ⟨rfl, ⟨Note.tap 0 4, by decide, rfl⟩, by decide, by decide⟩

/-- C3 (amended): (1) on a 4K chart whose first out-of-bounds note has
column 4 — in particular when no note exceeds column 4 — validate returns
`InvalidColumn { column: 4, key_count: 4 }`; (2) on a coop chart with odd
key count and no out-of-bounds note, validate returns `InvalidFormat`
with the "Coop mode requires even key count" message; (3) validate
returns Ok only when every note column is in bounds, every hold/burst
duration is strictly positive, timing points are non-decreasing in
`time_us`, a non-inherited timing point exists whenever notes are
non-empty, and no two notes on the same column overlap. -/
theorem C3_validate_spec :
    (∀ c : RoxChart, c.key_count = 4 →
      (∃ n ∈ c.notes, n.column = 4) →
      (∀ n ∈ c.notes, n.column ≤ 4) →
      c.validate = .error (.InvalidColumn 4 4))
    ∧ (∀ c : RoxChart, c.metadata.is_coop = true →
      c.key_count % 2 = 1 →
      (∀ n ∈ c.notes, n.column < c.key_count) →
      c.validate = .error (.InvalidFormat
        ("Coop mode requires even key count, got " ++ toString c.key_count)))
    ∧ (∀ c : RoxChart, c.validate = .ok () →
      (∀ n ∈ c.notes, n.column < c.key_count)
      ∧ (∀ n ∈ c.notes, (n.is_hold = true ∨ n.is_burst = true) → 0 < n.duration_us)
      ∧ List.Chain' (fun a b => a.time_us ≤ b.time_us) c.timing_points
      ∧ (c.notes ≠ [] → ∃ tp ∈ c.timing_points, tp.is_inherited = false)
      ∧ List.Pairwise (fun a b : Note => a.column = b.column →
          a.end_time_us ≤ b.time_us ∨ b.end_time_us ≤ a.time_us) c.notes) := by
  refine ⟨?_, ?_, ?_⟩
  · -- (1) first out-of-bounds note at column 4
    intro c hkey ⟨m, hm, hmcol⟩ hbound
    have hsome : (c.notes.find? (fun n => c.key_count ≤ n.column)).isSome := by
      rw [List.find?_isSome]
      exact ⟨m, hm, by simp [hkey, hmcol]⟩
    rcases Option.isSome_iff_exists.mp hsome with ⟨w, hw⟩
    have hwp := List.find?_some hw
    have hwmem : w ∈ c.notes := List.mem_of_find?_eq_some hw
    have hwcol : w.column = 4 := by
      simp only [decide_eq_true_eq] at hwp
      have h2 := hbound w hwmem
      omega
    unfold RoxChart.validate
    rw [hw]
    simp [hwcol, hkey]
  · -- (2) coop with odd key count, all columns in bounds
    intro c hcoop hodd hbound
    have hnone : c.notes.find? (fun n => c.key_count ≤ n.column) = none := by
      rw [List.find?_eq_none]
      intro n hn
      simp only [decide_eq_true_eq]
      exact Nat.not_le.mpr (hbound n hn)
    unfold RoxChart.validate
    rw [hnone]
    have hcond : (c.metadata.is_coop && !(c.key_count % 2 == 0)) = true := by
      simp [hcoop, hodd]
    rw [if_pos hcond]
  · -- (3) necessary conditions for Ok
    intro c hok
    unfold RoxChart.validate at hok
    split at hok
    · exact absurd hok (by simp)
    · rename_i hfindcol
      split at hok
      · exact absurd hok (by simp)
      · rename_i hcoop
        split at hok
        · exact absurd hok (by simp)
        · rename_i hfinddur
          split at hok
          · exact absurd hok (by simp)
          · rename_i u hts
            cases u
            -- common facts
            have hbounds : ∀ n ∈ c.notes, n.column < c.key_count := by
              intro n hn
              have := List.find?_eq_none.mp hfindcol n hn
              simp only [decide_eq_true_eq] at this
              omega
            have hdur : ∀ n ∈ c.notes,
                (n.is_hold = true ∨ n.is_burst = true) → 0 < n.duration_us := by
              intro n hn hnb
              have := List.find?_eq_none.mp hfinddur n hn
              simp only [Bool.and_eq_true, Bool.or_eq_true, decide_eq_true_eq,
                not_and, not_le] at this
              rcases hnb with h | h <;>
                [exact this (Or.inl h); exact this (Or.inr h)]
            have hchain := RoxChart.checkTimingSorted_chain c.timing_points (-(2 ^ 63)) hts
            -- the tail of validate after the timing check
            have hover : RoxChart.checkOverlapCols c.notes (List.range c.key_count) = .ok ()
                ∧ (c.notes ≠ [] → ∃ tp ∈ c.timing_points, tp.is_inherited = false) := by
              split at hok
              · rename_i hne
                split at hok
                · exact absurd hok (by simp)
                · rename_i tp htp
                  refine ⟨hok, fun _ => ?_⟩
                  refine ⟨tp, List.mem_of_find?_eq_some htp, ?_⟩
                  have := List.find?_some htp
                  simpa using this
              · rename_i hemp
                refine ⟨hok, fun hne => ?_⟩
                exact absurd (List.isEmpty_iff.mpr (by
                  simp only [Bool.not_eq_true] at hemp
                  exact List.isEmpty_iff.mp (by simpa using hemp))) (by
                    intro h
                    exact hne (List.isEmpty_iff.mp h))
            refine ⟨hbounds, hdur, hchain, hover.2, ?_⟩
            -- no two notes on the same column overlap
            rw [List.pairwise_iff_forall_sublist]
            intro a b hsub hcol
            have ha : a ∈ c.notes := hsub.subset (by simp)
            have hcola : a.column < c.key_count := hbounds a ha
            have hcolmem : a.column ∈ List.range c.key_count := List.mem_range.mpr hcola
            have hsorted0 := RoxChart.checkOverlapCols_ok c.notes (List.range c.key_count)
              hover.1 a.column hcolmem
            set p : Note → Bool := fun n => n.column == a.column with hp
            set s : List Note := sortLe RoxChart.timeLe (c.notes.filter p) with hs
            have hchainN : List.Chain' (fun x y => x.end_time_us ≤ y.time_us) s :=
              RoxChart.checkOverlapSorted_chain s a.column hsorted0
            have hsortedN : List.Pairwise (fun x y : Note => x.time_us ≤ y.time_us) s := by
              have := sortLe_pairwise RoxChart.timeLe RoxChart.timeLe_total
                RoxChart.timeLe_trans (c.notes.filter p)
              exact this.imp (fun h => by simpa [RoxChart.timeLe] using h)
            have hpw : List.Pairwise (fun x y : Note => x.end_time_us ≤ y.time_us) s :=
              RoxChart.pairwise_end_le_of_chain s hchainN hsortedN
            have hpw' : List.Pairwise (fun x y : Note =>
                x.end_time_us ≤ y.time_us ∨ y.end_time_us ≤ x.time_us) s :=
              hpw.imp Or.inl
            have hperm : List.Perm s (c.notes.filter p) := sortLe_perm _ _
            have hpwf : List.Pairwise (fun x y : Note =>
                x.end_time_us ≤ y.time_us ∨ y.end_time_us ≤ x.time_us) (c.notes.filter p) :=
              (hperm.pairwise_iff (fun hxy => hxy.symm)).mp hpw'
            have hpa : p a = true := by simp [hp]
            have hpb : p b = true := by simp [hp, hcol]
            have hsubf : List.Sublist [a, b] (c.notes.filter p) := by
              have hstep := List.Sublist.filter p hsub
              have hfab : [a, b].filter p = [a, b] := by
                simp [List.filter_cons, hpa, hpb]
              rwa [hfab] at hstep
            exact List.pairwise_iff_forall_sublist.mp hpwf hsubf

/-- A 4K chart whose only out-of-bounds note sits at column 4. -/
def c3w1 : RoxChart := { RoxChart.new 4 with notes := [Note.tap 0 4] }

/-- A 7K coop chart. -/
def c3w2 : RoxChart :=
  { RoxChart.new 7 with
    metadata := { Metadata.default with key_count := 7, is_coop := true } }

/-- Witness for C3: the amended theorem applied at concrete charts — a
4K chart whose only out-of-bounds note has column 4, a 7K coop chart,
and a valid chart whose columns are then all in bounds. -/
theorem C3_validate_spec_witness :
    c3w1.validate = .error (.InvalidColumn 4 4)
      ∧ c3w2.validate = .error (.InvalidFormat
          ("Coop mode requires even key count, got " ++ toString c3w2.key_count))
      ∧ (∀ n ∈ chartS1.notes, n.column < chartS1.key_count) := by
  refine ⟨C3_validate_spec.1 c3w1 rfl ⟨Note.tap 0 4, by decide, rfl⟩ (by decide),
    C3_validate_spec.2.1 c3w2 rfl rfl (by decide),
    (C3_validate_spec.2.2 chartS1 (by decide)).1⟩

/-- C4: for every input, the binary ROX decoder rejects inputs shorter
than 4 bytes or not starting with the magic with `InvalidFormat`, and
rejects any input larger than the 100 MiB ceiling with `InvalidFormat`
without invoking the decompressor (the result is independent of the
`decompress`/`deserialize` parameters). -/
theorem C4_rox_decode_rejects
    (decompress : List Nat → Except String (List Nat))
    (deserialize : List Nat → Except String RoxChart)
    (data : List Nat) :
    ((data.length < 4 ∨ data.take 4 ≠ ROX_MAGIC) →
      RoxCodec.decodeChecked decompress deserialize data
        = .error (.InvalidFormat "Invalid ROX file: missing magic bytes"))
    ∧ (RoxCodec.MAX_FILE_SIZE < data.length →
      ∃ msg, RoxCodec.decodeChecked decompress deserialize data
        = .error (.InvalidFormat msg)) := by
  constructor
  · intro h
    unfold RoxCodec.decodeChecked
    rw [if_pos h]
  · intro hbig
    unfold RoxCodec.decodeChecked
    by_cases h : data.length < 4 ∨ data.take 4 ≠ ROX_MAGIC
    · exact ⟨"Invalid ROX file: missing magic bytes", by rw [if_pos h]⟩
    · refine ⟨"File too large: " ++ toString data.length
        ++ " bytes (max " ++ toString (RoxCodec.MAX_FILE_SIZE / 1024 / 1024) ++ "MB)", ?_⟩
      rw [if_neg h, if_pos hbig]

/-- An input one byte over the ceiling that passes the magic check. -/
def c4big : List Nat := ROX_MAGIC ++ List.replicate (RoxCodec.MAX_FILE_SIZE + 1) 0

/-- Witness for C4: a two-byte input is rejected for the missing magic,
and a valid-magic input over 100 MiB is rejected as too large, for a
concrete decompressor that would otherwise succeed. -/
theorem C4_rox_decode_rejects_witness :
    RoxCodec.decodeChecked (fun d => .ok d) (fun _ => .ok chartS1) [0x52, 0x4F]
        = .error (.InvalidFormat "Invalid ROX file: missing magic bytes")
      ∧ ∃ msg, RoxCodec.decodeChecked (fun d => .ok d) (fun _ => .ok chartS1) c4big
        = .error (.InvalidFormat msg) :=
  ⟨(C4_rox_decode_rejects (fun d => .ok d) (fun _ => .ok chartS1) [0x52, 0x4F]).1
      (by decide),
    (C4_rox_decode_rejects (fun d => .ok d) (fun _ => .ok chartS1) c4big).2
      (by simp only [c4big, ROX_MAGIC, List.length_append, List.length_replicate]; decide)⟩

/-! ### Osu column mapping (src/src/codec/formats/osu) -/

/-- Convert a column index to an osu X position
(src/src/codec/formats/osu/encoder.rs lines 175-181, column_to_x).
The `i32` arithmetic truncates toward zero. -/
def column_to_x (column key_count : Nat) : Int :=
  Int.tdiv ((2 * (column : Int) + 1) * 256) (key_count : Int)

/-- A hit object of the osu parser (src/src/codec/formats/osu/types.rs,
OsuHitObject).  Times are milliseconds. -/
structure OsuHitObject where
  x : Int
  y : Int
  time : Int
  object_type : Nat
  hit_sound : Nat
  end_time : Option Int
  extras : String
  deriving DecidableEq, Repr

/-- Calculate the column index from the X position
(src/src/codec/formats/osu/types.rs lines 132-140, OsuHitObject::column). -/
def OsuHitObject.column (ho : OsuHitObject) (key_count : Nat) : Int :=
  Int.tdiv (ho.x * (key_count : Int)) 512

/-- C5: for every key count from 4 to 18 and every column below it, the
encoder's X coordinate `x = (2·c + 1) × 256 / key_count` decodes back via
`column = (x × key_count) / 512` to exactly the same column. -/
theorem C5_osu_column_roundtrip (key_count column : Nat)
    (h4 : 4 ≤ key_count) (h18 : key_count ≤ 18) (hc : column < key_count) :
    OsuHitObject.column
        ⟨column_to_x column key_count, 192, 0, 1, 0, none, ""⟩ key_count
      = column := by
  have key : ∀ k : Nat, k < 19 → ∀ c : Nat, c < k → 4 ≤ k →
      Int.tdiv (Int.tdiv ((2 * (c : Int) + 1) * 256) (k : Int) * (k : Int)) 512 = (c : Int) := by
    decide
  exact key key_count (by omega) column hc h4

/-- Witness for C5 at key count 7, column 6 (the X coordinate is 475, the
scenario-S2 value). -/
theorem C5_osu_column_roundtrip_witness :
    OsuHitObject.column ⟨column_to_x 6 7, 192, 0, 1, 0, none, ""⟩ 7 = 6 :=
  C5_osu_column_roundtrip 7 6 (by decide) (by decide) (by decide)

/-! ### Osu mode probe of the auto dispatcher (src/src/codec/auto/decode.rs)

The probe scans the UTF-8 text line by line; the model takes the list of
lines as lists of characters.  Rust's str::trim (Unicode whitespace) is
modelled for the ASCII whitespace the format uses, and u8::from_str is
modelled including its optional leading plus sign and its 0..=255 range
check. -/

/-- ASCII whitespace, the fragment of char::is_whitespace the format
exercises. -/
def wsChar (c : Char) : Bool := c == ' ' || c == '\t' || c == '\n' || c == '\r'

/-- Trim whitespace from both ends of a line (str::trim). -/
def trimChars (l : List Char) : List Char :=
  ((l.dropWhile wsChar).reverse.dropWhile wsChar).reverse

/-- Parse a plain decimal natural number (digits only, nonempty). -/
def parseNatChars (l : List Char) : Option Nat :=
  if l.isEmpty then none
  else if l.all Char.isDigit then
    some (l.foldl (fun acc c => acc * 10 + (c.toNat - 48)) 0)
  else none

/-- Parse a u8 (u8::from_str): optional leading plus sign, decimal
digits, value below 256. -/
def parseU8 (l : List Char) : Option Nat :=
  let t := match l with
    | '+' :: rest => rest
    | _ => l
  match parseNatChars t with
  | some n => if n < 256 then some n else none
  | none => none

/-- Mode probe of the dispatcher (src/src/codec/auto/decode.rs lines
61-83, detect_osu_mode): scan the lines in order; on a trimmed line
starting with Mode: whose value parses as u8, return that mode; stop
early on a line equal to the literal string the code compares against;
default to 3. -/
def detect_osu_mode : List (List Char) → Nat
  | [] => 3
  | line :: rest =>
    let t := trimChars line
    match (if List.isPrefixOf "Mode:".toList t then parseU8 (trimChars (t.drop 5)) else none) with
    | some m => m
    | none =>
      if t = "[Metadata] section".toList then 3
      else detect_osu_mode rest

/-- Which decoder the dispatcher routes an osu file to. -/
inductive OsuModeRoute where
  | taiko
  | mania
  | unsupported (mode : Nat)
  deriving DecidableEq, Repr

/-- Mode-based routing (src/src/codec/auto/decode.rs lines 50-59,
decode_osu_by_mode): 1 is taiko, 3 is mania, anything else is an
UnsupportedFormat error. -/
def decode_osu_by_mode (lines : List (List Char)) : OsuModeRoute :=
  match detect_osu_mode lines with
  | 1 => .taiko
  | 3 => .mania
  | m => .unsupported m

/-- C6 (code bug): the routing half of the claim holds — mode 1 goes to
the taiko decoder, mode 3 to mania, anything else is unsupported — but
the probe does NOT stop at the `[Metadata]` section header: the code
compares each line against the literal string `"[Metadata] section"`,
which never equals the actual header line `[Metadata]`, so a `Mode:`
line appearing after `[Metadata]` is still honoured.  On the failing
input (line `[Metadata]` followed by `Mode:1`), the claim requires the
default mode 3, but the code returns 1 and routes to taiko. -/
theorem C6_detect_osu_mode_bug :
    detect_osu_mode ["[Metadata]".toList, "Mode:1".toList] = 1
      ∧ decode_osu_by_mode ["[Metadata]".toList, "Mode:1".toList] = .taiko
      ∧ trimChars "[Metadata]".toList ≠ "[Metadata] section".toList
      ∧ decode_osu_by_mode ["Mode: 1".toList] = .taiko
      ∧ decode_osu_by_mode ["Mode: 3".toList] = .mania
      ∧ decode_osu_by_mode ["Mode: 2".toList] = .unsupported 2
      ∧ decode_osu_by_mode ["osu file format v14".toList] = .mania := by
  decide

/-! ### StepMania parser and decoder (src/src/codec/formats/sm)

The tag-level tokenisation (`#TAG:value;` extraction, pair splitting) is
not needed by any claim and is elided: the model starts from the parsed
beat/bpm pairs and from the measure lines, exactly the data the cited
functions `parse_bpms` (from its pair list), `parse_measure_notes` and
`SmDecoder::from_chart` consume.  All `f64` arithmetic is `Frac`. -/

/-- Note types of the `.sm` grammar
(src/src/codec/formats/sm/types.rs, SmNoteType). -/
inductive SmNoteType where
  | Empty
  | Tap
  | HoldHead
  | Tail
  | RollHead
  | Mine
  | Lift
  | Fake
  deriving DecidableEq, Repr

namespace SmNoteType

/-- Parse a measure-line character (SmNoteType::from_char). -/
def from_char (c : Char) : SmNoteType :=
  if c == '0' then .Empty
  else if c == '1' then .Tap
  else if c == '2' then .HoldHead
  else if c == '3' then .Tail
  else if c == '4' then .RollHead
  else if c == 'M' || c == 'm' then .Mine
  else if c == 'L' || c == 'l' then .Lift
  else if c == 'F' || c == 'f' then .Fake
  else .Empty

/-- Actionable notes are everything but Empty and Fake
(SmNoteType::is_note). -/
def is_note (t : SmNoteType) : Bool :=
  match t with
  | .Empty | .Fake => false
  | _ => true

end SmNoteType

/-- A parsed StepMania note (src/src/codec/formats/sm/types.rs, SmNote). -/
structure SmNote where
  time_us : Int
  column : Nat
  note_type : SmNoteType
  deriving DecidableEq, Repr

namespace SmTiming

/-- Convert rows to microseconds at a given BPM
(src/src/codec/formats/sm/types.rs lines 165-171, timing::rows_to_us):
beats = rows / 48, seconds = beats / (bpm / 60), and the f64 result of
seconds × 1e6 is cast `as i64`. -/
def rows_to_us (rows : Frac) (bpm : Frac) : Int :=
  Frac.trunc (Frac.mul (Frac.div (Frac.div rows ⟨48, 1⟩) (Frac.div bpm ⟨60, 1⟩)) ⟨1000000, 1⟩)

/-- Convert microseconds to rows at a given BPM
(src/src/codec/formats/sm/types.rs lines 175-180, timing::us_to_rows). -/
def us_to_rows (us : Int) (bpm : Frac) : Frac :=
  Frac.mul (Frac.mul (Frac.div (Frac.ofInt us) ⟨1000000, 1⟩) (Frac.div bpm ⟨60, 1⟩)) ⟨48, 1⟩

end SmTiming

/-- Loop of parse_bpms (src/src/codec/formats/sm/parser.rs lines
126-157) over the already-split `beat=bpm` pairs: walk the list
cumulatively, extending the time cursor by the beat delta at the current
BPM before switching BPM. -/
def parse_bpms_go (current_time : Int) (current_beat : Frac) (current_bpm : Frac) :
    List (Frac × Frac) → List (Int × Frac)
  | [] => []
  | (beat, bpm) :: rest =>
    if Frac.blt current_beat beat then
      let rows_elapsed := Frac.mul (Frac.sub beat current_beat) ⟨48, 1⟩
      let t := current_time + SmTiming.rows_to_us rows_elapsed current_bpm
      (t, bpm) :: parse_bpms_go t beat bpm rest
    else
      (current_time, bpm) :: parse_bpms_go current_time current_beat bpm rest

/-- parse_bpms from its sorted pair list: run the cumulative walk and
guarantee a BPM at time 0 (default 120). -/
def parse_bpms_pairs (pairs : List (Frac × Frac)) : List (Int × Frac) :=
  let result := parse_bpms_go 0 ⟨0, 1⟩ ⟨120, 1⟩ pairs
  match result with
  | [] => [(0, ⟨120, 1⟩)]
  | (t, _) :: _ => if 0 < t then (0, ⟨120, 1⟩) :: result else result

/-- Loop of row_to_us (src/src/codec/formats/sm/parser.rs lines 463-490)
over the BPM entries after the first: advance to the last BPM change
before the target row, then extend at the current BPM. -/
def row_to_us_go (row : Frac) (current_time : Int) (current_row : Frac) (current_bpm : Frac) :
    List (Int × Frac) → Int
  | [] => current_time + SmTiming.rows_to_us (Frac.sub row current_row) current_bpm
  | (bpm_time, new_bpm) :: rest =>
    let bpm_row := Frac.add current_row (SmTiming.us_to_rows (bpm_time - current_time) current_bpm)
    if Frac.ble row bpm_row then
      current_time + SmTiming.rows_to_us (Frac.sub row current_row) current_bpm
    else
      row_to_us_go row bpm_time bpm_row new_bpm rest

/-- row_to_us: convert a row position to microseconds using the BPM
list; an empty list means 120 BPM. -/
def row_to_us (row : Frac) (bpms : List (Int × Frac)) : Int :=
  match bpms with
  | [] => SmTiming.rows_to_us row ⟨120, 1⟩
  | (_, b0) :: rest => row_to_us_go row 0 ⟨0, 1⟩ b0 rest

/-- parse_measure_notes (src/src/codec/formats/sm/parser.rs lines
422-460): a measure of N lines gives each line 192/N rows; line i of
measure m sits at row m·192 + i·(192/N); every character whose note type
is actionable becomes an SmNote in its column. -/
def parse_measure_notes (lines : List (List Char)) (measure_num : Nat)
    (bpms : List (Int × Frac)) : List SmNote :=
  if lines.isEmpty then []
  else
    let rows_per_line := Frac.div ⟨192, 1⟩ ⟨(lines.length : Int), 1⟩
    (lines.enum.map (fun p =>
      let row := Frac.add (Frac.mul ⟨(measure_num : Int), 1⟩ ⟨192, 1⟩)
        (Frac.mul ⟨(p.1 : Int), 1⟩ rows_per_line)
      let t := row_to_us row bpms
      p.2.enum.filterMap (fun q =>
        let nt := SmNoteType.from_char q.2
        if nt.is_note then some (⟨t, q.1, nt⟩ : SmNote) else none))).flatten

/-- The measure loop of parse_chart: measures are processed in order
with consecutive measure numbers starting at 0. -/
def parse_measures (measures : List (List (List Char))) (bpms : List (Int × Frac)) :
    List SmNote :=
  (measures.enum.map (fun p => parse_measure_notes p.2 p.1 bpms)).flatten

/-- The comparison `from_chart` sorts the parsed notes with:
time, then column (SmDecoder::from_chart line 69). -/
def smNoteLe (a b : SmNote) : Bool :=
  a.time_us < b.time_us || (a.time_us == b.time_us && a.column ≤ b.column)

/-- Remove the first element satisfying `p`, returning it and the rest.
This jointly models `iter().position(pred)` followed by `Vec::remove`,
the pending-head lookup of SmDecoder::from_chart. -/
def removeFirst (p : α → Bool) : List α → Option (α × List α)
  | [] => none
  | x :: xs =>
    if p x then some (x, xs)
    else
      match removeFirst p xs with
      | none => none
      | some (y, ys) => some (y, x :: ys)

/-- Note-conversion loop of SmDecoder::from_chart
(src/src/codec/formats/sm/decoder.rs lines 62-114), processing the
time-sorted notes while buffering hold heads and roll heads per column
as FIFO queues (entries are pushed at the back): taps and lifts become
taps, mines become mines, a tail closes the first pending hold head in
its column (emitting a Hold) or, failing that, the first pending roll
head (emitting a Burst), and orphan tails emit nothing. -/
def sm_process : List SmNote → List (Int × Nat) → List (Int × Nat) → List Note
  | [], _, _ => []
  | n :: rest, holds, rolls =>
    match n.note_type with
    | .Tap => Note.tap n.time_us n.column :: sm_process rest holds rolls
    | .HoldHead => sm_process rest (holds ++ [(n.time_us, n.column)]) rolls
    | .RollHead => sm_process rest holds (rolls ++ [(n.time_us, n.column)])
    | .Tail =>
      match removeFirst (fun e => e.2 == n.column) holds with
      | some (e, holds') =>
        Note.hold e.1 (n.time_us - e.1) e.2 :: sm_process rest holds' rolls
      | none =>
        match removeFirst (fun e => e.2 == n.column) rolls with
        | some (e, rolls') =>
          Note.burst e.1 (n.time_us - e.1) e.2 :: sm_process rest holds rolls'
        | none => sm_process rest holds rolls
    | .Mine => Note.mine n.time_us n.column :: sm_process rest holds rolls
    | .Lift => Note.tap n.time_us n.column :: sm_process rest holds rolls
    | .Empty | .Fake => sm_process rest holds rolls

/-- SmDecoder::from_chart, note part: sort the parsed notes by time then
column, run the conversion loop with empty pending buffers, then sort
the resulting notes by time. -/
def from_chart_notes (notes : List SmNote) : List Note :=
  sortLe RoxChart.timeLe (sm_process (sortLe smNoteLe notes) [] [])

/-- The two measures of scenario S4: 0000/1000/0100/0010 and
0001/0000/0000/0000. -/
def s4measures : List (List (List Char)) :=
  [["0000".toList, "1000".toList, "0100".toList, "0010".toList],
   ["0001".toList, "0000".toList, "0000".toList, "0000".toList]]

/-- BPM list of scenario S4: the parse of `#BPMS:0=120;`. -/
def s4bpms : List (Int × Frac) := parse_bpms_pairs [(⟨0, 1⟩, ⟨120, 1⟩)]

/-- The notes the StepMania decoder produces for scenario S4. -/
def s4notes : List Note := from_chart_notes (parse_measures s4measures s4bpms)

/-- C7 counterexample: the scenario-S4 input decodes to 4 taps, one per
column, at rows 48/96/144/192 — but under 120 BPM those rows sit at
500000/1000000/1500000/2000000 µs (a row is 1/48 beat, a beat is half a
second), not at the claimed 125000/250000/375000/500000 µs. -/
theorem C7_sm_scenario_counterexample :
    s4notes = [Note.tap 500000 0, Note.tap 1000000 1,
        Note.tap 1500000 2, Note.tap 2000000 3]
      ∧ s4notes ≠ [Note.tap 125000 0, Note.tap 250000 1,
        Note.tap 375000 2, Note.tap 500000 3] := by
  decide

/-- C7 (amended): the scenario-S4 input yields exactly 4 tap notes, one
per column in order, with `time_us` 500000, 1000000, 1500000 and 2000000
(the times of rows 48, 96, 144 and 192 at 120 BPM); equivalently, row
r of the 48-rows-per-beat grid sits at r/48 · 0.5 s. -/
theorem C7_sm_scenario :
    s4notes = [Note.tap 500000 0, Note.tap 1000000 1,
        Note.tap 1500000 2, Note.tap 2000000 3]
      ∧ (s4notes.map Note.column = [0, 1, 2, 3])
      ∧ row_to_us ⟨48, 1⟩ s4bpms = 500000
      ∧ row_to_us ⟨96, 1⟩ s4bpms = 1000000
      ∧ row_to_us ⟨144, 1⟩ s4bpms = 1500000
      ∧ row_to_us ⟨192, 1⟩ s4bpms = 2000000 := by
  decide

theorem removeFirst_eq (p : α → Bool) (l : List α) :
    removeFirst p l =
      match (l.filter p).head? with
      | none => none
      | some x => some (x, l.eraseP p) := by
  induction l with
  | nil => rfl
  | cons x xs ih =>
    by_cases hx : p x = true
    · simp [removeFirst, hx, List.filter_cons, List.eraseP_cons]
    · have hx' : p x = false := by simpa using hx
      simp only [removeFirst, hx', Bool.false_eq_true, if_false, ih,
        List.filter_cons, List.eraseP_cons]
      cases (xs.filter p).head? <;> simp

/-- C9 counterexample: with a roll head at t=0 and a hold head at t=100
open in the same column, the tail at t=200 does not close the oldest
open head (the roll): the decoder emits `Hold(100, 100)`, not
`Burst(0, 200)` as the claim's oldest-head rule requires. -/
theorem C9_sm_pairing_counterexample :
    from_chart_notes [⟨0, 0, .RollHead⟩, ⟨100, 0, .HoldHead⟩, ⟨200, 0, .Tail⟩]
        = [Note.hold 100 100 0]
      ∧ from_chart_notes [⟨0, 0, .RollHead⟩, ⟨100, 0, .HoldHead⟩, ⟨200, 0, .Tail⟩]
        ≠ [Note.burst 0 200 0] := by
  decide

/-- C9 (amended): heads are buffered per kind in FIFO order (appended at
the back), and a '3' tail in a column closes the oldest open HOLD ('2')
head in that column when one exists, emitting a Hold with duration tail
time minus head time; only when no hold head is open in the column does
it close the oldest open ROLL ('4') head, emitting a Burst; a tail with
no open head of either kind in its column is silently dropped.  The
oldest open head of a kind is the first entry of the buffer filtered to
the column, and closing it removes exactly that entry. -/
theorem C9_sm_tail_pairing :
    (∀ (t : Int) (c : Nat) (rest : List SmNote) (holds rolls : List (Int × Nat)),
      sm_process (⟨t, c, .Tail⟩ :: rest) holds rolls =
        match (holds.filter (fun e => e.2 == c)).head? with
        | some e => Note.hold e.1 (t - e.1) e.2 ::
            sm_process rest (holds.eraseP (fun e => e.2 == c)) rolls
        | none =>
          match (rolls.filter (fun e => e.2 == c)).head? with
          | some e => Note.burst e.1 (t - e.1) e.2 ::
              sm_process rest holds (rolls.eraseP (fun e => e.2 == c))
          | none => sm_process rest holds rolls)
    ∧ (∀ (t : Int) (c : Nat) (rest : List SmNote) (holds rolls : List (Int × Nat)),
        sm_process (⟨t, c, .HoldHead⟩ :: rest) holds rolls
          = sm_process rest (holds ++ [(t, c)]) rolls)
    ∧ (∀ (t : Int) (c : Nat) (rest : List SmNote) (holds rolls : List (Int × Nat)),
        sm_process (⟨t, c, .RollHead⟩ :: rest) holds rolls
          = sm_process rest holds (rolls ++ [(t, c)])) := by
  refine ⟨?_, fun t c rest holds rolls => rfl, fun t c rest holds rolls => rfl⟩
  intro t c rest holds rolls
  simp only [sm_process]
  rw [removeFirst_eq, removeFirst_eq]
  cases (holds.filter (fun e => e.2 == c)).head? with
  | none =>
    cases (rolls.filter (fun e => e.2 == c)).head? with
    | none => rfl
    | some e => rfl
  | some e => rfl

/-! ### Taiko-to-4K conversion (src/src/codec/formats/taiko) -/

namespace TaikoHitsound

/-- Kat (rim): WHISTLE (bit 1) or CLAP (bit 3)
(src/src/codec/formats/taiko/types.rs, TaikoHitsound::is_kat). -/
def is_kat (h : Nat) : Bool := (h &&& 2 != 0) || (h &&& 8 != 0)

/-- Big note: FINISH (bit 2) (TaikoHitsound::is_big). -/
def is_big (h : Nat) : Bool := h &&& 4 != 0

end TaikoHitsound

/-- A parsed taiko hit object (src/src/codec/formats/taiko/types.rs,
TaikoHitObject): time in milliseconds (`f64`, modelled as `Frac`),
hitsound bitmask, object-type bitmask. -/
structure TaikoHitObject where
  time_ms : Frac
  hitsound : Nat
  object_type : Nat
  deriving DecidableEq, Repr

/-- Spinner test: object-type bit 3 (TaikoHitObject::is_spinner). -/
def TaikoHitObject.is_spinner (ho : TaikoHitObject) : Bool := ho.object_type &&& 8 != 0

/-- Column layout for the taiko-to-4K conversion
(src/src/codec/formats/taiko/types.rs, ColumnLayout). -/
inductive ColumnLayout where
  | Dkkd
  | Dkdk
  | Kddk
  deriving DecidableEq, Repr

namespace ColumnLayout

/-- Columns for Don notes, smallest first (ColumnLayout::don_columns). -/
def don_columns : ColumnLayout → Nat × Nat
  | .Dkkd => (0, 3)
  | .Dkdk => (0, 2)
  | .Kddk => (1, 2)

/-- Columns for Kat notes, smallest first (ColumnLayout::kat_columns). -/
def kat_columns : ColumnLayout → Nat × Nat
  | .Dkkd => (1, 2)
  | .Dkdk => (1, 3)
  | .Kddk => (0, 3)

end ColumnLayout

/-- Index into a two-column array.  The alternation indices are kept in
{0, 1} by construction (they start at 0 and are updated modulo 2). -/
def pairGet (p : Nat × Nat) (i : Nat) : Nat := if i == 0 then p.1 else p.2

/-- Alternation state of the conversion
(src/src/codec/formats/taiko/types.rs lines 121-147, AlternationState). -/
structure AlternationState where
  layout : ColumnLayout
  don_index : Nat
  kat_index : Nat
  deriving DecidableEq, Repr

namespace AlternationState

/-- Fresh state: both indices at 0 (AlternationState::new). -/
def new (layout : ColumnLayout) : AlternationState := ⟨layout, 0, 0⟩

/-- Next Don column(s) (AlternationState::next_don_columns, lines
151-163): a big note takes both columns and leaves the state unchanged;
otherwise the current column is taken and only the Don index advances
(modulo 2). -/
def next_don_columns (s : AlternationState) (is_big : Bool) :
    List Nat × AlternationState :=
  let columns := s.layout.don_columns
  if is_big then ([columns.1, columns.2], s)
  else ([pairGet columns s.don_index], { s with don_index := (s.don_index + 1) % 2 })

/-- Next Kat column(s) (AlternationState::next_kat_columns, lines
167-179). -/
def next_kat_columns (s : AlternationState) (is_big : Bool) :
    List Nat × AlternationState :=
  let columns := s.layout.kat_columns
  if is_big then ([columns.1, columns.2], s)
  else ([pairGet columns s.kat_index], { s with kat_index := (s.kat_index + 1) % 2 })

end AlternationState

/-- Hit-object loop of TaikoDecoder::decode_with_state
(src/src/codec/formats/taiko/decoder.rs lines 91-113): skip spinners;
convert the time to microseconds; route Kat hits (by hitsound) through
the Kat alternation and everything else through the Don alternation; emit
one tap per produced column. -/
def taiko_hits_notes (s : AlternationState) : List TaikoHitObject → List Note
  | [] => []
  | ho :: rest =>
    if ho.is_spinner then taiko_hits_notes s rest
    else
      let time_us := Frac.trunc (Frac.mul ho.time_ms ⟨1000, 1⟩)
      let big := TaikoHitsound.is_big ho.hitsound
      let step := if TaikoHitsound.is_kat ho.hitsound
        then s.next_kat_columns big
        else s.next_don_columns big
      step.1.map (fun c => Note.tap time_us c) ++ taiko_hits_notes step.2 rest

/-- An osu timing point as parsed (src/src/codec/formats/osu/types.rs,
OsuTimingPoint); time in milliseconds and beat length as `Frac`. -/
structure OsuTimingPoint where
  time : Frac
  beat_length : Frac
  meter : Nat
  sample_set : Nat
  sample_index : Nat
  volume : Nat
  uninherited : Bool
  effects : Nat
  deriving DecidableEq, Repr

/-- BPM of an uninherited point with positive beat length
(src/src/codec/formats/osu/types.rs lines 74-81, OsuTimingPoint::bpm):
60000 / beat_length. -/
def OsuTimingPoint.bpm? (tp : OsuTimingPoint) : Option Frac :=
  if tp.uninherited && Frac.blt ⟨0, 1⟩ tp.beat_length then
    some (Frac.div ⟨60000, 1⟩ tp.beat_length)
  else none

/-- Timing-point loop of TaikoDecoder::decode_with_state
(src/src/codec/formats/taiko/decoder.rs lines 69-83): copy every
uninherited point whose BPM is defined, carrying its time (ms to µs) and
meter; inherited (SV) points are not converted. -/
def taiko_timing_points : List OsuTimingPoint → List TimingPoint
  | [] => []
  | tp :: rest =>
    if tp.uninherited then
      match tp.bpm? with
      | some b =>
        { TimingPoint.bpm_point (Frac.trunc (Frac.mul tp.time ⟨1000, 1⟩)) b with
            signature := tp.meter } :: taiko_timing_points rest
      | none => taiko_timing_points rest
    else taiko_timing_points rest

/-- Timing points of the decoded taiko chart
(src/src/codec/formats/taiko/decoder.rs lines 85-88): if the copy loop
produced nothing, a default 120-BPM point at time 0 is inserted. -/
def taiko_chart_timing (tps : List OsuTimingPoint) : List TimingPoint :=
  if (taiko_timing_points tps).isEmpty then [TimingPoint.bpm_point 0 ⟨120, 1⟩]
  else taiko_timing_points tps

/-- The scenario-S5 hit objects: hits at 1000/2000/3000/4000 ms with
hitsound flags 0, 2, 4, 6, all plain circles. -/
def s5hits : List TaikoHitObject :=
  [⟨⟨1000, 1⟩, 0, 1⟩, ⟨⟨2000, 1⟩, 2, 1⟩, ⟨⟨3000, 1⟩, 4, 1⟩, ⟨⟨4000, 1⟩, 6, 1⟩]

/-- C8: the taiko conversion alternates per kind.  (1) A fresh state
starts both indices at 0 and each layout's column pairs are listed
smallest first, so alternation starts at the smallest column of the
layout.  (2)/(3) A non-big Don (resp. Kat) hit emits one tap in the
current Don (resp. Kat) column and advances only that kind's index.
(4)/(5) A big hit emits two simultaneous taps in both columns of its
kind and leaves the state (hence both indices) unchanged.  (6) Under
default DKKD, the scenario-S5 hits decode to exactly the six claimed
notes. -/
theorem C8_taiko_alternation :
    (∀ layout : ColumnLayout,
      (AlternationState.new layout).don_index = 0
      ∧ (AlternationState.new layout).kat_index = 0
      ∧ layout.don_columns.1 < layout.don_columns.2
      ∧ layout.kat_columns.1 < layout.kat_columns.2)
    ∧ (∀ (s : AlternationState) (ho : TaikoHitObject) (rest : List TaikoHitObject),
      ho.is_spinner = false → TaikoHitsound.is_kat ho.hitsound = false →
      TaikoHitsound.is_big ho.hitsound = false →
      taiko_hits_notes s (ho :: rest)
        = Note.tap (Frac.trunc (Frac.mul ho.time_ms ⟨1000, 1⟩))
            (pairGet s.layout.don_columns s.don_index)
          :: taiko_hits_notes { s with don_index := (s.don_index + 1) % 2 } rest)
    ∧ (∀ (s : AlternationState) (ho : TaikoHitObject) (rest : List TaikoHitObject),
      ho.is_spinner = false → TaikoHitsound.is_kat ho.hitsound = true →
      TaikoHitsound.is_big ho.hitsound = false →
      taiko_hits_notes s (ho :: rest)
        = Note.tap (Frac.trunc (Frac.mul ho.time_ms ⟨1000, 1⟩))
            (pairGet s.layout.kat_columns s.kat_index)
          :: taiko_hits_notes { s with kat_index := (s.kat_index + 1) % 2 } rest)
    ∧ (∀ (s : AlternationState) (ho : TaikoHitObject) (rest : List TaikoHitObject),
      ho.is_spinner = false → TaikoHitsound.is_kat ho.hitsound = false →
      TaikoHitsound.is_big ho.hitsound = true →
      taiko_hits_notes s (ho :: rest)
        = Note.tap (Frac.trunc (Frac.mul ho.time_ms ⟨1000, 1⟩)) s.layout.don_columns.1
          :: Note.tap (Frac.trunc (Frac.mul ho.time_ms ⟨1000, 1⟩)) s.layout.don_columns.2
          :: taiko_hits_notes s rest)
    ∧ (∀ (s : AlternationState) (ho : TaikoHitObject) (rest : List TaikoHitObject),
      ho.is_spinner = false → TaikoHitsound.is_kat ho.hitsound = true →
      TaikoHitsound.is_big ho.hitsound = true →
      taiko_hits_notes s (ho :: rest)
        = Note.tap (Frac.trunc (Frac.mul ho.time_ms ⟨1000, 1⟩)) s.layout.kat_columns.1
          :: Note.tap (Frac.trunc (Frac.mul ho.time_ms ⟨1000, 1⟩)) s.layout.kat_columns.2
          :: taiko_hits_notes s rest)
    ∧ sortLe RoxChart.timeLe
        (taiko_hits_notes (AlternationState.new .Dkkd) s5hits)
      = [Note.tap 1000000 0, Note.tap 2000000 1, Note.tap 3000000 0,
         Note.tap 3000000 3, Note.tap 4000000 1, Note.tap 4000000 2] := by
  refine ⟨?_, ?_, ?_, ?_, ?_, by decide⟩
  · intro layout
    cases layout <;> exact ⟨rfl, rfl, by decide, by decide⟩
  · intro s ho rest hspin hkat hbig
    simp [taiko_hits_notes, hspin, hkat, hbig, AlternationState.next_don_columns]
  · intro s ho rest hspin hkat hbig
    simp [taiko_hits_notes, hspin, hkat, hbig, AlternationState.next_kat_columns]
  · intro s ho rest hspin hkat hbig
    simp [taiko_hits_notes, hspin, hkat, hbig, AlternationState.next_don_columns]
  · intro s ho rest hspin hkat hbig
    simp [taiko_hits_notes, hspin, hkat, hbig, AlternationState.next_kat_columns]

/-- Witness for C8: the single-hit statements applied at a fresh DKKD
state and concrete hits (a plain Don at 1000 ms and a big Kat at
4000 ms). -/
theorem C8_taiko_alternation_witness :
    taiko_hits_notes (AlternationState.new .Dkkd) [⟨⟨1000, 1⟩, 0, 1⟩]
      = Note.tap (Frac.trunc (Frac.mul ⟨1000, 1⟩ ⟨1000, 1⟩))
          (pairGet (ColumnLayout.Dkkd.don_columns) 0)
        :: taiko_hits_notes { AlternationState.new .Dkkd with don_index := (0 + 1) % 2 } []
    ∧ taiko_hits_notes (AlternationState.new .Dkkd) [⟨⟨4000, 1⟩, 6, 1⟩]
      = Note.tap (Frac.trunc (Frac.mul ⟨4000, 1⟩ ⟨1000, 1⟩)) (ColumnLayout.Dkkd.kat_columns.1)
        :: Note.tap (Frac.trunc (Frac.mul ⟨4000, 1⟩ ⟨1000, 1⟩)) (ColumnLayout.Dkkd.kat_columns.2)
        :: taiko_hits_notes (AlternationState.new .Dkkd) [] :=
  ⟨C8_taiko_alternation.2.1 (AlternationState.new .Dkkd) ⟨⟨1000, 1⟩, 0, 1⟩ [] rfl rfl rfl,
    C8_taiko_alternation.2.2.2.2.1 (AlternationState.new .Dkkd) ⟨⟨4000, 1⟩, 6, 1⟩ [] rfl rfl rfl⟩

theorem taiko_timing_points_uninherited :
    ∀ (tps : List OsuTimingPoint), ∀ tp ∈ taiko_timing_points tps,
      tp.is_inherited = false
  | [], _, hmem => absurd hmem (List.not_mem_nil _)
  | tp :: rest, x, hmem => by
    unfold taiko_timing_points at hmem
    split at hmem
    · split at hmem
      · rcases List.mem_cons.mp hmem with rfl | hmem
        · rfl
        · exact taiko_timing_points_uninherited rest x hmem
      · exact taiko_timing_points_uninherited rest x hmem
    · exact taiko_timing_points_uninherited rest x hmem

/-- C10: for every parsed taiko beatmap, the timing points of the
decoded chart consist only of non-inherited (BPM) points, and at least
one such point is always present: the uninherited source points are
copied, and when the copy loop produces none, a default 120-BPM point at
time 0 is inserted — so the decoded chart always satisfies the
at-least-one-BPM-point validation invariant (with or without notes). -/
theorem C10_taiko_always_bpm (tps : List OsuTimingPoint) :
    (∀ tp ∈ taiko_chart_timing tps, tp.is_inherited = false)
    ∧ (∃ tp ∈ taiko_chart_timing tps, tp.is_inherited = false)
    ∧ (taiko_timing_points tps = [] →
        taiko_chart_timing tps = [TimingPoint.bpm_point 0 ⟨120, 1⟩]) := by
  have hall : ∀ tp ∈ taiko_chart_timing tps, tp.is_inherited = false := by
    intro tp hmem
    unfold taiko_chart_timing at hmem
    split at hmem
    · rcases List.mem_singleton.mp hmem with rfl
      rfl
    · exact taiko_timing_points_uninherited tps tp hmem
  refine ⟨hall, ?_, ?_⟩
  · unfold taiko_chart_timing
    split
    · exact ⟨TimingPoint.bpm_point 0 ⟨120, 1⟩, List.mem_singleton_self _, rfl⟩
    · rename_i hne
      cases hl : taiko_timing_points tps with
      | nil => simp [hl] at hne
      | cons x xs =>
        have hx : x ∈ taiko_timing_points tps := by
          rw [hl]
          exact List.mem_cons_self x xs
        exact ⟨x, List.mem_cons_self x xs, taiko_timing_points_uninherited tps x hx⟩
  · intro hempty
    unfold taiko_chart_timing
    rw [hempty]
    rfl

/-- Witness for C10 at the empty timing-point list: the default 120-BPM
point is inserted and is non-inherited. -/
theorem C10_taiko_always_bpm_witness :
    (∃ tp ∈ taiko_chart_timing [], tp.is_inherited = false)
      ∧ taiko_chart_timing [] = [TimingPoint.bpm_point 0 ⟨120, 1⟩] :=
  ⟨(C10_taiko_always_bpm []).2.1, (C10_taiko_always_bpm []).2.2 rfl⟩
